import Mathlib

/-!
Shallow embedding of the in-memory todo HTTP service in `src/cmd/main.go`.

The program keeps a single in-process slice `todos := []Todo{}` and exposes
four routes: `GET /health`, `POST /todos`, `GET /todos`, `PATCH /todos/{id}`.
We embed the data model (`Todo`, `TodoStatus`), the generic decode helper
(`decodeJSON`), the three store-touching handlers, and a small-step trace
semantics over request sequences, then prove the specified properties.

Time: the handlers read `time.Now()`; within one Go process successive
reads of the monotonic clock are nondecreasing, so a read is modelled as
the current clock value advanced by a nonnegative delta carried by the
request that triggers the read.
-/

namespace TodoApp

/-- `StatusPending TodoStatus = "pending"` in main.go. The Go string type
`TodoStatus` is embedded as `String`, and `time.Time` values as read from
the process clock are embedded as `Nat`. -/
def StatusPending : String := "pending"

/-- `StatusCompleted TodoStatus = "completed"` in main.go. -/
def StatusCompleted : String := "completed"

/-- The `Todo` struct of main.go, with its JSON field names;
`CompletedAt *time.Time` with `omitempty` is an optional time
(`none` = the field is absent from the JSON object). -/
structure Todo where
  id : String
  title : String
  description : String
  status : String
  created_at : Nat
  updated_at : Nat
  completed_at : Option Nat
deriving DecidableEq, Repr

/-- Outcome of a call to `decodeJSON[T]`: the returned `(T, error)` pair
(collapsed into an `Except`) together with whether `r.Body.Close()` ran
during the call. -/
structure DecodeOutcome (T : Type) where
  result : Except String T
  bodyClosed : Bool
deriving Repr

/-- `decodeJSON[T any](r *http.Request) (T, error)` from main.go.
`parse` is the outcome of `json.NewDecoder(r.Body).Decode(&v)` (`.error e`
when the body is malformed for shape `T`). On a parse error the function
returns `fmt.Errorf("failed to decode request body: %w", err)` at once;
the `defer r.Body.Close()` statement comes after that early return, so the
deferred close is registered, and hence runs, only on the success path. -/
def decodeJSON {T : Type} (parse : Except String T) : DecodeOutcome T :=
  match parse with
  | .error e =>
    { result := .error ("failed to decode request body: " ++ e), bodyClosed := false }
  | .ok v => { result := .ok v, bodyClosed := true }

/-- Modelled from the spec: `uuid.New().String()` (package
`github.com/google/uuid`, whose sources are not part of this repository)
returns a freshly generated, unique, non-empty identifier string on every
call. We model it as an injective function of the number of identifiers
generated so far by the process. -/
def uuidNew (n : Nat) : String := String.mk (List.replicate (n + 1) 'u')

/-- The whole mutable state of the running process: the `todos` slice, the
number of uuids generated so far, and the last value read from the
monotonic clock. -/
structure ServerState where
  todos : List Todo
  uuidCtr : Nat
  clock : Nat
deriving DecidableEq, Repr

/-- State at `main` start: `todos := []Todo{}`. -/
def initState : ServerState := { todos := [], uuidCtr := 0, clock := 0 }

/-- The anonymous `struct { Status TodoStatus }` decoded by the PATCH
handler. -/
structure StatusUpdate where
  status : String
deriving DecidableEq, Repr

/-- One inbound HTTP request, carrying the data the handler extracts from
it and the clock advances observed by its `time.Now()` calls:
* `post body d1 d2` — `POST /todos` whose body decodes to `body`; the two
  `time.Now()` calls read `clock + d1` and `clock + d1 + d2`;
* `postBad err` — `POST /todos` whose body fails to decode with parse
  error `err`;
* `getTodos` — `GET /todos`;
* `patch id body d` — `PATCH /todos/{id}` whose body decodes to `body`;
  the single `time.Now()` call reads `clock + d`;
* `patchBad id err` — `PATCH /todos/{id}` whose body fails to decode;
* `health` — `GET /health`. -/
inductive Request where
  | post (body : Todo) (d1 d2 : Nat)
  | postBad (err : String)
  | getTodos
  | patch (id : String) (body : StatusUpdate) (d : Nat)
  | patchBad (id : String) (err : String)
  | health
deriving DecidableEq, Repr

/-- What a handler writes back: JSON of one todo, JSON of the whole slice,
plain text from `http.Error`, or nothing. -/
inductive ResponseBody where
  | empty
  | todo (t : Todo)
  | todos (ts : List Todo)
  | text (s : String)
deriving DecidableEq, Repr

/-- An HTTP response: status code plus body. -/
structure Response where
  status : Nat
  body : ResponseBody
deriving DecidableEq, Repr

/-- The field assignments of the POST handler after a successful decode:
`todo.ID = uuid.New().String(); todo.CreatedAt = time.Now();
todo.UpdatedAt = time.Now(); todo.Status = StatusPending`. `t1` and `t2`
are the values of the two `time.Now()` reads. All other decoded fields —
including `CompletedAt` — are kept as decoded. -/
def createTodo (body : Todo) (newId : String) (t1 t2 : Nat) : Todo :=
  { body with id := newId, created_at := t1, updated_at := t2, status := StatusPending }

/-- `POST /todos`, success path: build the new todo, append it to the
slice (`todos = append(todos, todo)`), respond `201` with the todo. -/
def postTodos (s : ServerState) (body : Todo) (d1 d2 : Nat) : Response × ServerState :=
  let t1 := s.clock + d1
  let t2 := t1 + d2
  let todo := createTodo body (uuidNew s.uuidCtr) t1 t2
  (⟨201, .todo todo⟩,
   { todos := s.todos ++ [todo], uuidCtr := s.uuidCtr + 1, clock := t2 })

/-- The loop body of the PATCH handler on the matched record:
`todo.Status = update.Status; todo.UpdatedAt = now;
if update.Status == StatusCompleted { todo.CompletedAt = &now }`. -/
def applyUpdate (t : Todo) (ns : String) (now : Nat) : Todo :=
  { t with status := ns, updated_at := now,
           completed_at := if ns = StatusCompleted then some now else t.completed_at }

/-- The PATCH handler loop
`for i, todo := range todos { if todo.ID == id { ...; todos[i] = todo; found = true; ...; break } }`:
scan in order, rewrite the first record whose `ID` equals `id`, stop.
Returns the updated record (the `found` flag as an `Option`) and the slice
after the loop. -/
def updateStatusByID : List Todo → String → String → Nat → Option Todo × List Todo
  | [], _, _, _ => (none, [])
  | t :: ts, id, ns, now =>
    if t.id = id then
      (some (applyUpdate t ns now), applyUpdate t ns now :: ts)
    else
      let r := updateStatusByID ts id ns now
      (r.1, t :: r.2)

/-- `PATCH /todos/{id}`, success-decode path: read `now := time.Now()`,
run the scan loop; respond `200` with the updated record when found,
otherwise `http.Error(w, "Todo not found", http.StatusNotFound)`. -/
def patchTodos (s : ServerState) (id : String) (body : StatusUpdate) (d : Nat) :
    Response × ServerState :=
  let now := s.clock + d
  let r := updateStatusByID s.todos id body.status now
  match r.1 with
  | some t' => (⟨200, .todo t'⟩, { s with todos := r.2, clock := now })
  | none => (⟨404, .text "Todo not found"⟩, { s with clock := now })

/-- One request against the server. Decode failures respond `400` with the
wrapped decode error (`http.Error(w, err.Error(), http.StatusBadRequest)`)
and touch nothing; `GET /todos` responds `200` with the whole slice;
`GET /health` responds `200` with an empty body. -/
def step (s : ServerState) : Request → Response × ServerState
  | .post body d1 d2 => postTodos s body d1 d2
  | .postBad err =>
    (⟨400, .text ("failed to decode request body: " ++ err)⟩, s)
  | .getTodos => (⟨200, .todos s.todos⟩, s)
  | .patch id body d => patchTodos s id body d
  | .patchBad _ err =>
    (⟨400, .text ("failed to decode request body: " ++ err)⟩, s)
  | .health => (⟨200, .empty⟩, s)

/-- Serve a sequence of requests starting from state `s`. -/
def runFrom (s : ServerState) (reqs : List Request) : ServerState :=
  reqs.foldl (fun s r => (step s r).2) s

/-- Serve a sequence of requests from process start. -/
def run (reqs : List Request) : ServerState := runFrom initState reqs

/-! ### Basic lemmas about the update loop and the fresh-id model -/

@[simp]
theorem applyUpdate_id (t : Todo) (ns : String) (now : Nat) :
    (applyUpdate t ns now).id = t.id := rfl

@[simp]
theorem applyUpdate_title (t : Todo) (ns : String) (now : Nat) :
    (applyUpdate t ns now).title = t.title := rfl

@[simp]
theorem applyUpdate_description (t : Todo) (ns : String) (now : Nat) :
    (applyUpdate t ns now).description = t.description := rfl

@[simp]
theorem applyUpdate_created_at (t : Todo) (ns : String) (now : Nat) :
    (applyUpdate t ns now).created_at = t.created_at := rfl

@[simp]
theorem applyUpdate_status (t : Todo) (ns : String) (now : Nat) :
    (applyUpdate t ns now).status = ns := rfl

@[simp]
theorem applyUpdate_updated_at (t : Todo) (ns : String) (now : Nat) :
    (applyUpdate t ns now).updated_at = now := rfl

theorem applyUpdate_completed_at (t : Todo) (ns : String) (now : Nat) :
    (applyUpdate t ns now).completed_at =
      if ns = StatusCompleted then some now else t.completed_at := rfl

theorem uuidNew_injective : Function.Injective uuidNew := by
  intro a b h
  have hd := congrArg String.data h
  simp only [uuidNew] at hd
  have hl := congrArg List.length hd
  simp only [List.length_replicate] at hl
  omega

theorem uuidNew_ne_empty (n : Nat) : uuidNew n ≠ "" := by
  intro h
  simp only [uuidNew] at h
  have hl := congrArg (fun s => s.data.length) h
  simp at hl

/-- When no record matches, the loop finds nothing and the slice is left
as it was. -/
theorem updateStatusByID_not_found (todos : List Todo) (id : String)
    (ns : String) (now : Nat) (h : ∀ t ∈ todos, t.id ≠ id) :
    updateStatusByID todos id ns now = (none, todos) := by
  induction todos with
  | nil => rfl
  | cons t ts ih =>
    have ht : ¬ t.id = id := h t (List.mem_cons_self t ts)
    have hts : ∀ u ∈ ts, u.id ≠ id := fun u hu => h u (List.mem_cons_of_mem t hu)
    simp [updateStatusByID, ht, ih hts]

/-- When the slice decomposes as a prefix with no match, then a matching
record `t`, the loop stops at `t`, rewrites it, and leaves everything
else alone. -/
theorem updateStatusByID_found (pre post : List Todo) (t : Todo) (id : String)
    (ns : String) (now : Nat) (hpre : ∀ u ∈ pre, u.id ≠ id) (ht : t.id = id) :
    updateStatusByID (pre ++ t :: post) id ns now =
      (some (applyUpdate t ns now), pre ++ applyUpdate t ns now :: post) := by
  induction pre with
  | nil => simp [updateStatusByID, ht]
  | cons u us ih =>
    have hu : ¬ u.id = id := hpre u (List.mem_cons_self u us)
    have hus : ∀ v ∈ us, v.id ≠ id := fun v hv => hpre v (List.mem_cons_of_mem u hv)
    simp [updateStatusByID, hu, ih hus]

/-- Characterization of a successful scan: it found the first match. -/
theorem updateStatusByID_eq_some {todos ts' : List Todo} {id : String}
    {ns : String} {now : Nat} {t' : Todo}
    (h : updateStatusByID todos id ns now = (some t', ts')) :
    ∃ pre t post, todos = pre ++ t :: post ∧ (∀ u ∈ pre, u.id ≠ id) ∧ t.id = id ∧
      t' = applyUpdate t ns now ∧ ts' = pre ++ t' :: post := by
  induction todos generalizing ts' with
  | nil => simp [updateStatusByID] at h
  | cons t ts ih =>
    by_cases ht : t.id = id
    · simp only [updateStatusByID, ht, if_true, Prod.mk.injEq, Option.some.injEq] at h
      obtain ⟨h1, h2⟩ := h
      refine ⟨[], t, ts, by simp, by simp, ht, h1.symm, ?_⟩
      rw [← h2, h1]
      simp
    · simp only [updateStatusByID, ht, if_false] at h
      obtain ⟨h1, h2⟩ := Prod.mk.injEq .. ▸ h
      obtain ⟨ts'', hts''⟩ : ∃ ts'', updateStatusByID ts id ns now = (some t', ts'') := by
        exact ⟨(updateStatusByID ts id ns now).2, by rw [← h1]⟩
      obtain ⟨pre, u, post, hdec, hpre, hu, ht', hts'⟩ := ih hts''
      refine ⟨t :: pre, u, post, by simp [hdec], ?_, hu, ht', ?_⟩
      · intro v hv
        rcases List.mem_cons.mp hv with rfl | hv
        · exact ht
        · exact hpre v hv
      · rw [← h2, hts'', hts']
        simp

/-- Characterization of a failed scan: no record matched and the slice is
unchanged. -/
theorem updateStatusByID_eq_none {todos ts' : List Todo} {id : String}
    {ns : String} {now : Nat}
    (h : updateStatusByID todos id ns now = (none, ts')) :
    ts' = todos ∧ ∀ t ∈ todos, t.id ≠ id := by
  induction todos generalizing ts' with
  | nil =>
    simp only [updateStatusByID] at h
    obtain ⟨-, h2⟩ := Prod.mk.injEq .. ▸ h
    exact ⟨h2.symm, by simp⟩
  | cons t ts ih =>
    by_cases ht : t.id = id
    · simp [updateStatusByID, ht] at h
    · simp only [updateStatusByID, ht, if_false] at h
      obtain ⟨h1, h2⟩ := Prod.mk.injEq .. ▸ h
      obtain ⟨ts'', hts''⟩ : ∃ ts'', updateStatusByID ts id ns now = (none, ts'') := by
        exact ⟨(updateStatusByID ts id ns now).2, by rw [← h1]⟩
      obtain ⟨hts', hall⟩ := ih hts''
      constructor
      · rw [← h2, hts'']
        simp [hts']
      · intro u hu
        rcases List.mem_cons.mp hu with rfl | hu
        · exact ht
        · exact hall u hu

/-- The scan never changes the multiset of ids (each slot keeps its id). -/
theorem updateStatusByID_map_id (todos : List Todo) (id : String)
    (ns : String) (now : Nat) :
    (updateStatusByID todos id ns now).2.map (fun t => t.id) =
      todos.map (fun t => t.id) := by
  induction todos with
  | nil => rfl
  | cons t ts ih =>
    by_cases ht : t.id = id <;> simp [updateStatusByID, ht, ih]

/-- Every record of the post-scan slice is an original record or the
rewrite of an original record. -/
theorem mem_updateStatusByID {todos : List Todo} {id : String}
    {ns : String} {now : Nat} {t' : Todo}
    (h : t' ∈ (updateStatusByID todos id ns now).2) :
    t' ∈ todos ∨ ∃ t ∈ todos, t' = applyUpdate t ns now := by
  induction todos with
  | nil => simp [updateStatusByID] at h
  | cons t ts ih =>
    by_cases ht : t.id = id
    · simp only [updateStatusByID, ht, if_true] at h
      rcases List.mem_cons.mp h with rfl | h
      · exact Or.inr ⟨t, List.mem_cons_self t ts, rfl⟩
      · exact Or.inl (List.mem_cons_of_mem t h)
    · simp only [updateStatusByID, ht, if_false] at h
      rcases List.mem_cons.mp h with rfl | h
      · exact Or.inl (List.mem_cons_self t' ts)
      · rcases ih h with h | ⟨u, hu, he⟩
        · exact Or.inl (List.mem_cons_of_mem t h)
        · exact Or.inr ⟨u, List.mem_cons_of_mem t hu, he⟩

/-! ### Equations for the handler steps -/

theorem step_post (s : ServerState) (body : Todo) (d1 d2 : Nat) :
    step s (.post body d1 d2) =
      (⟨201, .todo (createTodo body (uuidNew s.uuidCtr) (s.clock + d1) (s.clock + d1 + d2))⟩,
       { todos := s.todos ++
           [createTodo body (uuidNew s.uuidCtr) (s.clock + d1) (s.clock + d1 + d2)],
         uuidCtr := s.uuidCtr + 1, clock := s.clock + d1 + d2 }) := rfl

theorem step_patch_none {s : ServerState} {id : String} {body : StatusUpdate} {d : Nat}
    (hu : (updateStatusByID s.todos id body.status (s.clock + d)).1 = none) :
    step s (.patch id body d) =
      (⟨404, .text "Todo not found"⟩, { s with clock := s.clock + d }) := by
  show patchTodos s id body d = _
  simp [patchTodos, hu]

theorem step_patch_some {s : ServerState} {id : String} {body : StatusUpdate} {d : Nat}
    {t' : Todo}
    (hu : (updateStatusByID s.todos id body.status (s.clock + d)).1 = some t') :
    step s (.patch id body d) =
      (⟨200, .todo t'⟩,
       { s with todos := (updateStatusByID s.todos id body.status (s.clock + d)).2,
                clock := s.clock + d }) := by
  show patchTodos s id body d = _
  simp [patchTodos, hu]

/-! ### Reachability invariants -/

/-- Invariant: timestamps of every stored todo are ordered and bounded by
the clock. -/
def ClockInv (s : ServerState) : Prop :=
  ∀ t ∈ s.todos, t.created_at ≤ t.updated_at ∧ t.updated_at ≤ s.clock

/-- Invariant: every stored id came from some earlier `uuidNew` call, and
the stored ids are pairwise distinct. -/
def IdInv (s : ServerState) : Prop :=
  (∀ t ∈ s.todos, ∃ k, k < s.uuidCtr ∧ t.id = uuidNew k) ∧
    (s.todos.map (fun t => t.id)).Nodup

/-- Invariant: every stored status is one of the two enumerated values. -/
def StatusInv (s : ServerState) : Prop :=
  ∀ t ∈ s.todos, t.status = StatusPending ∨ t.status = StatusCompleted

/-- A PATCH request whose decoded status is one of the enumerated values
(trivially true of the other request kinds). -/
def patchStatusOK : Request → Bool
  | .patch _ b _ => b.status == StatusPending || b.status == StatusCompleted
  | _ => true

/-- Fold a one-step-preserved invariant over a request sequence, where
preservation may rely on a per-request side condition `Q`. -/
theorem runFrom_inv (P : ServerState → Prop) (Q : Request → Prop)
    (hstep : ∀ s r, Q r → P s → P (step s r).2) :
    ∀ reqs : List Request, (∀ r ∈ reqs, Q r) → ∀ s, P s → P (runFrom s reqs) := by
  intro reqs
  induction reqs with
  | nil => intro _ s hs; exact hs
  | cons r rs ih =>
    intro hq s hs
    have h1 : P (step s r).2 := hstep s r (hq r (List.mem_cons_self r rs)) hs
    have h2 : ∀ u ∈ rs, Q u := fun u hu => hq u (List.mem_cons_of_mem r hu)
    exact ih h2 (step s r).2 h1

theorem clockInv_step (s : ServerState) (r : Request) (h : ClockInv s) :
    ClockInv (step s r).2 := by
  cases r with
  | post body d1 d2 =>
    intro t ht
    rw [step_post] at ht ⊢
    simp only at ht ⊢
    rcases List.mem_append.mp ht with ht | ht
    · obtain ⟨h1, h2⟩ := h t ht
      exact ⟨h1, by omega⟩
    · rcases List.mem_singleton.mp ht with rfl
      refine ⟨?_, ?_⟩ <;> simp [createTodo]
  | patch id body d =>
    intro t ht
    rcases hu : (updateStatusByID s.todos id body.status (s.clock + d)).1 with _ | t''
    · rw [step_patch_none hu] at ht ⊢
      simp only at ht ⊢
      obtain ⟨h1, h2⟩ := h t ht
      exact ⟨h1, by omega⟩
    · rw [step_patch_some hu] at ht ⊢
      simp only at ht ⊢
      rcases mem_updateStatusByID ht with hmem | ⟨u, hu2, rfl⟩
      · obtain ⟨h1, h2⟩ := h t hmem
        exact ⟨h1, by omega⟩
      · obtain ⟨h1, h2⟩ := h u hu2
        refine ⟨?_, ?_⟩ <;> simp [applyUpdate]
        omega
  | postBad err => exact h
  | getTodos => exact h
  | patchBad id err => exact h
  | health => exact h

theorem idInv_step (s : ServerState) (r : Request) (h : IdInv s) :
    IdInv (step s r).2 := by
  obtain ⟨hprov, hnodup⟩ := h
  cases r with
  | post body d1 d2 =>
    rw [step_post]
    constructor
    · intro t ht
      simp only at ht ⊢
      rcases List.mem_append.mp ht with ht | ht
      · obtain ⟨k, hk, hid⟩ := hprov t ht
        exact ⟨k, by omega, hid⟩
      · rcases List.mem_singleton.mp ht with rfl
        exact ⟨s.uuidCtr, by omega, rfl⟩
    · simp only [List.map_append, List.map_cons, List.map_nil, List.nodup_append]
      refine ⟨hnodup, by simp, ?_⟩
      intro x hx hx2
      simp only [List.mem_map] at hx
      obtain ⟨t, ht, rfl⟩ := hx
      have hx3 : t.id = uuidNew s.uuidCtr := by
        simpa [createTodo] using List.mem_singleton.mp hx2
      obtain ⟨k, hk, hid⟩ := hprov t ht
      rw [hid] at hx3
      have : k = s.uuidCtr := uuidNew_injective hx3
      omega
  | patch id body d =>
    rcases hu : (updateStatusByID s.todos id body.status (s.clock + d)).1 with _ | t''
    · rw [step_patch_none hu]
      exact ⟨fun t ht => hprov t ht, hnodup⟩
    · rw [step_patch_some hu]
      constructor
      · intro t ht
        simp only at ht ⊢
        rcases mem_updateStatusByID ht with hmem | ⟨u, hu2, rfl⟩
        · exact hprov t hmem
        · obtain ⟨k, hk, hid⟩ := hprov u hu2
          exact ⟨k, hk, by simpa using hid⟩
      · simpa [updateStatusByID_map_id] using hnodup
  | postBad err => exact ⟨hprov, hnodup⟩
  | getTodos => exact ⟨hprov, hnodup⟩
  | patchBad id err => exact ⟨hprov, hnodup⟩
  | health => exact ⟨hprov, hnodup⟩

theorem statusInv_step (s : ServerState) (r : Request)
    (hq : patchStatusOK r = true) (h : StatusInv s) : StatusInv (step s r).2 := by
  cases r with
  | post body d1 d2 =>
    intro t ht
    rw [step_post] at ht
    simp only at ht
    rcases List.mem_append.mp ht with ht | ht
    · exact h t ht
    · rcases List.mem_singleton.mp ht with rfl
      exact Or.inl rfl
  | patch id body d =>
    have hb : body.status = StatusPending ∨ body.status = StatusCompleted := by
      simpa [patchStatusOK] using hq
    intro t ht
    rcases hu : (updateStatusByID s.todos id body.status (s.clock + d)).1 with _ | t''
    · rw [step_patch_none hu] at ht
      exact h t ht
    · rw [step_patch_some hu] at ht
      simp only at ht
      rcases mem_updateStatusByID ht with hmem | ⟨u, _, rfl⟩
      · exact h t hmem
      · simpa using hb
  | postBad err => exact h
  | getTodos => exact h
  | patchBad id err => exact h
  | health => exact h

theorem clockInv_run (reqs : List Request) : ClockInv (run reqs) := by
  refine runFrom_inv ClockInv (fun _ => True) (fun s r _ h => clockInv_step s r h) reqs
    (fun _ _ => trivial) initState ?_
  intro t ht
  simp [initState] at ht

theorem idInv_run (reqs : List Request) : IdInv (run reqs) := by
  refine runFrom_inv IdInv (fun _ => True) (fun s r _ h => idInv_step s r h) reqs
    (fun _ _ => trivial) initState ?_
  refine ⟨?_, by simp [initState]⟩
  intro t ht
  simp [initState] at ht

/-- A PATCH response that carries a todo is the success response: the scan
found a first match and rewrote exactly that slot. -/
theorem patch_found {s : ServerState} {id : String} {body : StatusUpdate} {d : Nat}
    {resp : Response} {s' : ServerState} {t' : Todo}
    (h : step s (.patch id body d) = (resp, s')) (hr : resp.body = .todo t') :
    ∃ pre t post, s.todos = pre ++ t :: post ∧ (∀ u ∈ pre, u.id ≠ id) ∧ t.id = id ∧
      t' = applyUpdate t body.status (s.clock + d) ∧
      s'.todos = pre ++ t' :: post ∧ resp = ⟨200, .todo t'⟩ ∧
      s'.uuidCtr = s.uuidCtr ∧ s'.clock = s.clock + d := by
  rcases hu : (updateStatusByID s.todos id body.status (s.clock + d)).1 with _ | t''
  · rw [step_patch_none hu] at h
    obtain ⟨h1, -⟩ := Prod.mk.injEq .. ▸ h
    rw [← h1] at hr
    simp at hr
  · rw [step_patch_some hu] at h
    obtain ⟨h1, h2⟩ := Prod.mk.injEq .. ▸ h
    rw [← h1] at hr
    simp only [ResponseBody.todo.injEq] at hr
    subst hr
    have hpair : updateStatusByID s.todos id body.status (s.clock + d) =
        (some t'', (updateStatusByID s.todos id body.status (s.clock + d)).2) := by
      rw [← hu]
    obtain ⟨pre, t, post, hdec, hpre, ht, ht', hts'⟩ := updateStatusByID_eq_some hpair
    refine ⟨pre, t, post, hdec, hpre, ht, ht', ?_, h1.symm, ?_, ?_⟩ <;> rw [← h2]
    exact hts'

/-! ### The claims -/

/-- Claim C1: the update-status operation, given an id, a new status and
the time `now` read at the start of the request, scans the slice in
order; on the first record whose id matches it sets `status` to the new
status and `updated_at = now`, sets `completed_at = now` iff the new
status is `completed` (otherwise it keeps its previous value), and
reports found with the updated record, which the handler returns with
status 200; if no record matches it reports not-found and the handler
responds 404 with the slice unchanged. -/
theorem c1_update_status_spec (s : ServerState) (id : String) (body : StatusUpdate)
    (d : Nat) (pre post : List Todo) (t : Todo) :
    (s.todos = pre ++ t :: post → (∀ u ∈ pre, u.id ≠ id) → t.id = id →
      updateStatusByID s.todos id body.status (s.clock + d) =
        (some (applyUpdate t body.status (s.clock + d)),
         pre ++ applyUpdate t body.status (s.clock + d) :: post) ∧
      (applyUpdate t body.status (s.clock + d)).status = body.status ∧
      (applyUpdate t body.status (s.clock + d)).updated_at = s.clock + d ∧
      (applyUpdate t body.status (s.clock + d)).completed_at =
        (if body.status = StatusCompleted then some (s.clock + d) else t.completed_at) ∧
      step s (.patch id body d) =
        (⟨200, .todo (applyUpdate t body.status (s.clock + d))⟩,
         { s with todos := pre ++ applyUpdate t body.status (s.clock + d) :: post,
                  clock := s.clock + d })) ∧
    ((∀ u ∈ s.todos, u.id ≠ id) →
      updateStatusByID s.todos id body.status (s.clock + d) = (none, s.todos) ∧
      step s (.patch id body d) =
        (⟨404, .text "Todo not found"⟩, { s with clock := s.clock + d })) := by
  constructor
  · intro hdec hpre ht
    have hfound := updateStatusByID_found pre post t id body.status (s.clock + d) hpre ht
    rw [← hdec] at hfound
    have h1 : (updateStatusByID s.todos id body.status (s.clock + d)).1 =
        some (applyUpdate t body.status (s.clock + d)) := by rw [hfound]
    have h2 : (updateStatusByID s.todos id body.status (s.clock + d)).2 =
        pre ++ applyUpdate t body.status (s.clock + d) :: post := by rw [hfound]
    refine ⟨hfound, rfl, rfl,
      applyUpdate_completed_at t body.status (s.clock + d), ?_⟩
    rw [step_patch_some h1, h2]
  · intro hnone
    have h := updateStatusByID_not_found s.todos id body.status (s.clock + d) hnone
    have hu : (updateStatusByID s.todos id body.status (s.clock + d)).1 = none := by
      rw [h]
    exact ⟨h, step_patch_none hu⟩

/-- A concrete pending todo for the witnesses. -/
def sampleTodo : Todo :=
  { id := "u", title := "A", description := "B", status := "pending",
    created_at := 0, updated_at := 0, completed_at := none }

/-- A concrete server state holding `sampleTodo`. -/
def sampleState : ServerState := { todos := [sampleTodo], uuidCtr := 1, clock := 0 }

theorem c1_update_status_spec_witness :
    updateStatusByID sampleState.todos "u" "completed" (sampleState.clock + 5) =
      (some (applyUpdate sampleTodo "completed" (sampleState.clock + 5)),
       [] ++ applyUpdate sampleTodo "completed" (sampleState.clock + 5) :: []) :=
  ((c1_update_status_spec sampleState "u" ⟨"completed"⟩ 5 [] [] sampleTodo).1
    rfl (by simp) rfl).1

/-- Claim C5: every handler-level error leaves the store unchanged: an
update targeting an id with no matching record responds 404 without
mutating the slice, and a malformed body to create or update responds 400
(carrying the wrapped decode error) without mutating the slice. -/
theorem c5_errors_leave_store_unchanged (s : ServerState) (id err : String)
    (body : StatusUpdate) (d : Nat) :
    ((∀ u ∈ s.todos, u.id ≠ id) →
      step s (.patch id body d) =
        (⟨404, .text "Todo not found"⟩, { s with clock := s.clock + d }) ∧
      (step s (.patch id body d)).2.todos = s.todos) ∧
    step s (.postBad err) =
      (⟨400, .text ("failed to decode request body: " ++ err)⟩, s) ∧
    step s (.patchBad id err) =
      (⟨400, .text ("failed to decode request body: " ++ err)⟩, s) := by
  refine ⟨?_, rfl, rfl⟩
  intro hnone
  have h := updateStatusByID_not_found s.todos id body.status (s.clock + d) hnone
  have hu : (updateStatusByID s.todos id body.status (s.clock + d)).1 = none := by
    rw [h]
  have hs := step_patch_none hu
  exact ⟨hs, by rw [hs]⟩

theorem c5_errors_leave_store_unchanged_witness :
    step sampleState (.patch "z" ⟨"completed"⟩ 1) =
      (⟨404, .text "Todo not found"⟩, { sampleState with clock := sampleState.clock + 1 }) ∧
    (step sampleState (.patch "z" ⟨"completed"⟩ 1)).2.todos = sampleState.todos :=
  (c5_errors_leave_store_unchanged sampleState "z" "boom" ⟨"completed"⟩ 1).1 (by decide)

/-- Claim C6: a successful update mutates only the `status`, `updated_at`
and `completed_at` fields of the single matched record — its id, title,
description and created_at, every other record, and the slice length are
unchanged — and `completed_at`, once set, is never cleared: an update
whose new status is not `completed` (in particular back to `pending`)
leaves the existing `completed_at` value in place. -/
theorem c6_update_frame (s : ServerState) (id : String) (body : StatusUpdate)
    (d : Nat) (resp : Response) (s' : ServerState) (t' : Todo)
    (h : step s (.patch id body d) = (resp, s')) (hr : resp.body = .todo t') :
    ∃ pre t post,
      s.todos = pre ++ t :: post ∧ s'.todos = pre ++ t' :: post ∧
      t'.id = t.id ∧ t'.title = t.title ∧ t'.description = t.description ∧
      t'.created_at = t.created_at ∧
      t'.status = body.status ∧ t'.updated_at = s.clock + d ∧
      s'.todos.length = s.todos.length ∧
      (body.status ≠ StatusCompleted → t'.completed_at = t.completed_at) ∧
      (t.completed_at ≠ none → t'.completed_at ≠ none) := by
  obtain ⟨pre, t, post, hdec, hpre, ht, ht', hts', hresp, huuid, hclock⟩ :=
    patch_found h hr
  refine ⟨pre, t, post, hdec, hts', ?_⟩
  subst ht'
  refine ⟨rfl, rfl, rfl, rfl, rfl, rfl, ?_, ?_, ?_⟩
  · rw [hdec, hts']
    simp
  · intro hns
    rw [applyUpdate_completed_at, if_neg hns]
  · intro hc
    rw [applyUpdate_completed_at]
    by_cases hcs : body.status = StatusCompleted <;> simp [hcs, hc]

theorem c6_update_frame_witness :
    ∃ pre t post,
      sampleState.todos = pre ++ t :: post ∧
      [applyUpdate sampleTodo "pending" 3] = pre ++ applyUpdate sampleTodo "pending" 3 :: post ∧
      (applyUpdate sampleTodo "pending" 3).id = t.id ∧
      (applyUpdate sampleTodo "pending" 3).title = t.title ∧
      (applyUpdate sampleTodo "pending" 3).description = t.description ∧
      (applyUpdate sampleTodo "pending" 3).created_at = t.created_at ∧
      (applyUpdate sampleTodo "pending" 3).status = "pending" ∧
      (applyUpdate sampleTodo "pending" 3).updated_at = sampleState.clock + 3 ∧
      [applyUpdate sampleTodo "pending" 3].length = sampleState.todos.length ∧
      ("pending" ≠ StatusCompleted →
        (applyUpdate sampleTodo "pending" 3).completed_at = t.completed_at) ∧
      (t.completed_at ≠ none → (applyUpdate sampleTodo "pending" 3).completed_at ≠ none) := by
  have h := c6_update_frame sampleState "u" ⟨"pending"⟩ 3
    ⟨200, .todo (applyUpdate sampleTodo "pending" 3)⟩
    { sampleState with todos := [applyUpdate sampleTodo "pending" 3], clock := 3 }
    (applyUpdate sampleTodo "pending" 3) (by decide) rfl
  simpa using h

/-- Claim C10: whenever an update with new status `completed` finds its
target record, the returned record's `completed_at` is present and equal
to its `updated_at`, both being the single time value read at the start
of the update. -/
theorem c10_completed_sets_completed_at (s : ServerState) (id : String) (d : Nat)
    (resp : Response) (s' : ServerState) (t' : Todo)
    (h : step s (.patch id ⟨StatusCompleted⟩ d) = (resp, s'))
    (hr : resp.body = .todo t') :
    t'.completed_at = some t'.updated_at ∧ t'.updated_at = s.clock + d := by
  obtain ⟨pre, t, post, hdec, hpre, ht, ht', hts', hresp, -, -⟩ := patch_found h hr
  subst ht'
  refine ⟨?_, rfl⟩
  rw [applyUpdate_completed_at, applyUpdate_updated_at, if_pos rfl]

theorem c10_completed_sets_completed_at_witness :
    (applyUpdate sampleTodo StatusCompleted 7).completed_at =
      some (applyUpdate sampleTodo StatusCompleted 7).updated_at ∧
    (applyUpdate sampleTodo StatusCompleted 7).updated_at = sampleState.clock + 7 :=
  c10_completed_sets_completed_at sampleState "u" 7
    ⟨200, .todo (applyUpdate sampleTodo StatusCompleted 7)⟩
    { sampleState with todos := [applyUpdate sampleTodo StatusCompleted 7], clock := 7 }
    (applyUpdate sampleTodo StatusCompleted 7) (by decide) rfl

/-- A decoded POST body in which the client supplied its own values for
every field, including `completed_at`. -/
def c2Body : Todo :=
  { id := "client-id", title := "A", description := "B", status := "done",
    created_at := 99, updated_at := 98, completed_at := some 5 }

/-- Claim C2 is false as stated: a POST whose decoded body carries
`completed_at = 5` — and during which the monotonic clock advances by 1
between the two `time.Now()` reads — stores and returns a todo whose
`completed_at` field is present (the handler never clears it) and whose
`created_at` (0) differs from its `updated_at` (1). -/
theorem c2_counterexample :
    (step initState (.post c2Body 0 1)).2.todos.map (fun t => t.completed_at) =
      [some 5] ∧
    (step initState (.post c2Body 0 1)).1.body =
      .todo (createTodo c2Body (uuidNew 0) 0 1) ∧
    ¬ ((createTodo c2Body (uuidNew 0) 0 1).completed_at = none ∧
       (createTodo c2Body (uuidNew 0) 0 1).created_at =
         (createTodo c2Body (uuidNew 0) 0 1).updated_at) := by decide

/-- Claim C2 (amended): for every create request whose body decodes
successfully, the todo returned (and appended to the store) has the
freshly generated non-empty id, `status = "pending"`, `created_at` and
`updated_at` taken from the two `time.Now()` reads (so `created_at` ≤
`updated_at`, with equality exactly when the clock does not advance
between the reads), and `completed_at` equal to the client-supplied
`completed_at` — in particular absent whenever the body does not supply
one, as with `{"title":"A","description":"B"}`. -/
theorem c2_amended_create_fields (s : ServerState) (body : Todo) (d1 d2 : Nat) :
    (step s (.post body d1 d2)).1.status = 201 ∧
    (step s (.post body d1 d2)).1.body =
      .todo (createTodo body (uuidNew s.uuidCtr) (s.clock + d1) (s.clock + d1 + d2)) ∧
    (step s (.post body d1 d2)).2.todos =
      s.todos ++ [createTodo body (uuidNew s.uuidCtr) (s.clock + d1) (s.clock + d1 + d2)] ∧
    (createTodo body (uuidNew s.uuidCtr) (s.clock + d1) (s.clock + d1 + d2)).id ≠ "" ∧
    (createTodo body (uuidNew s.uuidCtr) (s.clock + d1) (s.clock + d1 + d2)).status =
      StatusPending ∧
    (createTodo body (uuidNew s.uuidCtr) (s.clock + d1) (s.clock + d1 + d2)).created_at ≤
      (createTodo body (uuidNew s.uuidCtr) (s.clock + d1) (s.clock + d1 + d2)).updated_at ∧
    ((createTodo body (uuidNew s.uuidCtr) (s.clock + d1) (s.clock + d1 + d2)).created_at =
      (createTodo body (uuidNew s.uuidCtr) (s.clock + d1) (s.clock + d1 + d2)).updated_at ↔
      d2 = 0) ∧
    (createTodo body (uuidNew s.uuidCtr) (s.clock + d1) (s.clock + d1 + d2)).completed_at =
      body.completed_at := by
  rw [step_post]
  refine ⟨rfl, rfl, rfl, uuidNew_ne_empty s.uuidCtr, rfl, ?_, ?_, rfl⟩
  · show s.clock + d1 ≤ s.clock + d1 + d2
    omega
  · show s.clock + d1 = s.clock + d1 + d2 ↔ d2 = 0
    omega

/-- Claim C3 is false as stated: the update path persists the decoded
status string verbatim, so after one POST and one PATCH carrying status
`"banana"`, the store holds a todo whose status is neither `"pending"`
nor `"completed"`. -/
theorem c3_counterexample :
    (run [.post c2Body 0 0, .patch (uuidNew 0) ⟨"banana"⟩ 0]).todos.map
        (fun t => t.status) = ["banana"] ∧
    ¬ (∀ t ∈ (run [.post c2Body 0 0, .patch (uuidNew 0) ⟨"banana"⟩ 0]).todos,
        t.status = StatusPending ∨ t.status = StatusCompleted) := by decide

/-- Claim C3 (amended): for every store state reachable by requests whose
every decoded update status lies in `{pending, completed}`, every stored
todo's status is one of the two enumerated values; the update path itself
validates nothing and persists the decoded string verbatim, so other
values are reachable. -/
theorem c3_amended_status_inv (reqs : List Request)
    (h : ∀ r ∈ reqs, patchStatusOK r = true) :
    ∀ t ∈ (run reqs).todos, t.status = StatusPending ∨ t.status = StatusCompleted := by
  refine runFrom_inv StatusInv (fun r => patchStatusOK r = true)
    statusInv_step reqs h initState ?_
  intro t ht
  simp [initState] at ht

theorem c3_amended_status_inv_witness :
    (createTodo c2Body (uuidNew 0) 0 0).status = StatusPending ∨
    (createTodo c2Body (uuidNew 0) 0 0).status = StatusCompleted :=
  c3_amended_status_inv [.post c2Body 0 0] (by decide)
    (createTodo c2Body (uuidNew 0) 0 0) (by decide)

/-- Claim C4: on every successful create the handler discards the
client-supplied id, created_at, updated_at and status — the created todo
depends only on the remaining decoded fields — replacing them with a
freshly generated identifier, the two current-time reads, and `pending`;
and across any request sequence the stored ids are pairwise distinct. -/
theorem c4_fresh_unique_ids :
    (∀ b b2 : Todo, ∀ newId : String, ∀ t1 t2 : Nat,
      b.title = b2.title → b.description = b2.description →
      b.completed_at = b2.completed_at →
      createTodo b newId t1 t2 = createTodo b2 newId t1 t2) ∧
    (∀ (b : Todo) (newId : String) (t1 t2 : Nat),
      (createTodo b newId t1 t2).id = newId ∧
      (createTodo b newId t1 t2).created_at = t1 ∧
      (createTodo b newId t1 t2).updated_at = t2 ∧
      (createTodo b newId t1 t2).status = StatusPending) ∧
    (∀ (s : ServerState) (b : Todo) (d1 d2 : Nat),
      (step s (.post b d1 d2)).2.todos =
        s.todos ++ [createTodo b (uuidNew s.uuidCtr) (s.clock + d1) (s.clock + d1 + d2)]) ∧
    (∀ reqs : List Request, ((run reqs).todos.map (fun t => t.id)).Nodup) := by
  refine ⟨?_, fun b newId t1 t2 => ⟨rfl, rfl, rfl, rfl⟩,
    fun s b d1 d2 => by rw [step_post], fun reqs => (idInv_run reqs).2⟩
  intro b b2 newId t1 t2 h1 h2 h3
  cases b
  cases b2
  simp_all [createTodo]

/-- A second decoded POST body that differs from `c2Body` only in the four
fields the create handler discards. -/
def c4Body : Todo :=
  { id := "other-id", title := "A", description := "B", status := "weird",
    created_at := 7, updated_at := 3, completed_at := some 5 }

theorem c4_fresh_unique_ids_witness :
    createTodo c2Body "x" 1 2 = createTodo c4Body "x" 1 2 ∧
    ((run [.post c2Body 0 0, .post c4Body 1 1]).todos.map (fun t => t.id)).Nodup :=
  ⟨c4_fresh_unique_ids.1 c2Body c4Body "x" 1 2 rfl rfl rfl,
   c4_fresh_unique_ids.2.2.2 [.post c2Body 0 0, .post c4Body 1 1]⟩

/-- Claim C7: in every reachable store state, every stored todo satisfies
`created_at` ≤ `updated_at`: creation sets both from current-time reads in
order, and every status update writes an `updated_at` no earlier than the
record's `created_at`. -/
theorem c7_created_le_updated (reqs : List Request) :
    ∀ t ∈ (run reqs).todos, t.created_at ≤ t.updated_at :=
  fun t ht => (clockInv_run reqs t ht).1

theorem c7_created_le_updated_witness :
    (createTodo c2Body (uuidNew 0) 0 1).created_at ≤
      (createTodo c2Body (uuidNew 0) 0 1).updated_at :=
  c7_created_le_updated [.post c2Body 0 1] (createTodo c2Body (uuidNew 0) 0 1)
    (by decide)

theorem runFrom_posts (posts : List (Todo × Nat × Nat)) (s : ServerState) :
    (runFrom s (posts.map fun p => Request.post p.1 p.2.1 p.2.2)).todos.map
        (fun t => (t.title, t.description)) =
      s.todos.map (fun t => (t.title, t.description)) ++
        posts.map (fun p => (p.1.title, p.1.description)) ∧
    (runFrom s (posts.map fun p => Request.post p.1 p.2.1 p.2.2)).todos.length =
      s.todos.length + posts.length := by
  induction posts generalizing s with
  | nil => simp [runFrom]
  | cons p ps ih =>
    have hstep : runFrom s ((p :: ps).map fun q => Request.post q.1 q.2.1 q.2.2) =
        runFrom (step s (.post p.1 p.2.1 p.2.2)).2
          (ps.map fun q => Request.post q.1 q.2.1 q.2.2) := rfl
    rw [hstep]
    obtain ⟨h1, h2⟩ := ih (step s (.post p.1 p.2.1 p.2.2)).2
    rw [step_post] at h1 h2 ⊢
    simp only [List.map_append, List.length_append] at h1 h2
    constructor
    · rw [h1]
      simp [createTodo]
    · rw [h2]
      simp
      omega

/-- Claim C8: after any sequence of N successful creates (and no other
mutations), the store holds exactly N todos carrying the client-supplied
titles and descriptions in creation order, and the list operation
responds 200 with exactly that sequence, unfiltered and unpaginated,
without mutating anything. -/
theorem c8_list_after_creates (posts : List (Todo × Nat × Nat)) :
    (run (posts.map fun p => Request.post p.1 p.2.1 p.2.2)).todos.length =
      posts.length ∧
    (run (posts.map fun p => Request.post p.1 p.2.1 p.2.2)).todos.map
        (fun t => (t.title, t.description)) =
      posts.map (fun p => (p.1.title, p.1.description)) ∧
    step (run (posts.map fun p => Request.post p.1 p.2.1 p.2.2)) .getTodos =
      (⟨200, .todos (run (posts.map fun p => Request.post p.1 p.2.1 p.2.2)).todos⟩,
       run (posts.map fun p => Request.post p.1 p.2.1 p.2.2)) := by
  obtain ⟨h1, h2⟩ := runFrom_posts posts initState
  refine ⟨?_, ?_, rfl⟩
  · simpa [run, initState] using h2
  · simpa [run, initState] using h1

/-- Claim C9, settled against the code: on malformed input `decodeJSON`
does fail with a decode error wrapping the underlying parse failure, but
the request body is closed only on the success path — the
`defer r.Body.Close()` in main.go comes after the early `return` inside
the error check, so on the decode-failure path the function returns
before the close is ever registered. -/
theorem c9_decode_wraps_and_closes_only_on_success (e : String) (v : Todo) :
    (decodeJSON (Except.error e : Except String Todo)).result =
      Except.error ("failed to decode request body: " ++ e) ∧
    (decodeJSON (Except.error e : Except String Todo)).bodyClosed = false ∧
    (decodeJSON (Except.ok v : Except String Todo)).bodyClosed = true :=
  ⟨rfl, rfl, rfl⟩

end TodoApp
